import Mathlib

/-!
Verification of the mini-MVC framework (router, request/response, model and
field validation layer, CRUD controllers) against its specification.

The blog application (`app.py`) and the framework test suite
(`test_framework.py`) are embedded from their sources.  The framework core
(`models/base.py`, `models/fields.py`, `core/request.py`, `core/response.py`,
`core/router.py`, `controllers/model_controller.py`) is imported by those
files but its source is not part of the repository snapshot, so those
components are modelled from the specification, as marked on each definition.
-/

set_option autoImplicit false

namespace MiniMVC

/-! ## JSON values and the wire format -/

/-- JSON values (wire format: bodies are JSON objects, list responses are
JSON arrays of objects).  Numbers are modelled as integers; floating-point
literals are out of scope for the claims considered here. -/
inductive Json where
  | null
  | bool (b : Bool)
  | num (n : Int)
  | str (s : String)
  | arr (xs : List Json)
  | obj (kvs : List (String × Json))

/-- The double-quote character. -/
def quoteC : Char := Char.ofNat 34

/-- The backslash character. -/
def backslashC : Char := Char.ofNat 92

/-- The opening-brace character. -/
def lbraceC : Char := Char.ofNat 123

/-- The closing-brace character. -/
def rbraceC : Char := Char.ofNat 125

/-- Escape one character for JSON string output. -/
def escChar (c : Char) : String :=
  if c = quoteC ∨ c = backslashC then String.mk [backslashC, c] else String.singleton c

/-- Escape a string for JSON output. -/
def escapeStr (s : String) : String :=
  String.join (s.toList.map escChar)

mutual

/-- Serialize a JSON value, modelling `json.dumps` with its default
separators. -/
def dumps : Json → String
  | .null => "null"
  | .bool true => "true"
  | .bool false => "false"
  | .num n => toString n
  | .str s => "\"" ++ escapeStr s ++ "\""
  | .arr xs => "[" ++ dumpsElems xs ++ "]"
  | .obj kvs => "\x7b" ++ dumpsMembers kvs ++ "\x7d"

/-- Serialize the comma-separated elements of a JSON array. -/
def dumpsElems : List Json → String
  | [] => ""
  | [x] => dumps x
  | x :: xs => dumps x ++ ", " ++ dumpsElems xs

/-- Serialize the comma-separated members of a JSON object. -/
def dumpsMembers : List (String × Json) → String
  | [] => ""
  | [kv] => "\"" ++ escapeStr kv.1 ++ "\": " ++ dumps kv.2
  | kv :: kvs => "\"" ++ escapeStr kv.1 ++ "\": " ++ dumps kv.2 ++ ", " ++ dumpsMembers kvs

end

/-! ## A JSON parser, modelling `json.loads` -/

/-- Is a character JSON whitespace? -/
def isWsChar (c : Char) : Bool :=
  c = ' ' ∨ c = '\t' ∨ c = '\n' ∨ c = '\r'

/-- Drop leading whitespace. -/
def skipWs : List Char → List Char
  | [] => []
  | c :: cs => if isWsChar c then skipWs cs else c :: cs

/-- Map an escape code to the character it denotes (quote, backslash and
slash map to themselves). -/
def escMap (c : Char) : Char :=
  if c = 'n' then '\n' else if c = 't' then '\t' else if c = 'r' then '\r' else c

/-- Parse the remainder of a JSON string literal, the opening quote already
consumed; returns the characters of the string and the rest of the input. -/
def parseStrChars : List Char → Option (List Char × List Char)
  | [] => Option.none
  | c :: cs =>
    if c = quoteC then some ([], cs)
    else if c = backslashC then
      match cs with
      | [] => Option.none
      | e :: cs2 => (parseStrChars cs2).map (fun r => (escMap e :: r.1, r.2))
    else (parseStrChars cs).map (fun r => (c :: r.1, r.2))

/-- Split off a maximal run of decimal digits. -/
def takeDigits : List Char → (List Char × List Char)
  | [] => ([], [])
  | c :: cs =>
    if c.isDigit then
      let r := takeDigits cs
      (c :: r.1, r.2)
    else ([], c :: cs)

/-- Value of a digit string. -/
def digitsToNat (ds : List Char) : Nat :=
  ds.foldl (fun a c => a * 10 + (c.toNat - 48)) 0

/-- Consume an expected literal word, returning the rest of the input. -/
def dropLit : List Char → List Char → Option (List Char)
  | [], cs => some cs
  | l :: ls, c :: cs => if c = l then dropLit ls cs else Option.none
  | _ :: _, [] => Option.none

mutual

/-- Parse one JSON value (fuel-driven recursive descent). -/
def parseVal : Nat → List Char → Option (Json × List Char)
  | 0, _ => Option.none
  | Nat.succ fuel, cs =>
    match skipWs cs with
    | [] => Option.none
    | c :: rest =>
      if c = 'n' then (dropLit ['u', 'l', 'l'] rest).map (fun r => (Json.null, r))
      else if c = 't' then (dropLit ['r', 'u', 'e'] rest).map (fun r => (Json.bool true, r))
      else if c = 'f' then (dropLit ['a', 'l', 's', 'e'] rest).map (fun r => (Json.bool false, r))
      else if c = quoteC then (parseStrChars rest).map (fun r => (Json.str (String.mk r.1), r.2))
      else if c = '[' then
        match skipWs rest with
        | [] => Option.none
        | c2 :: cs2 =>
          if c2 = ']' then some (Json.arr [], cs2)
          else (parseElems fuel (c2 :: cs2)).map (fun r => (Json.arr r.1, r.2))
      else if c = lbraceC then
        match skipWs rest with
        | [] => Option.none
        | c2 :: cs2 =>
          if c2 = rbraceC then some (Json.obj [], cs2)
          else (parseMembers fuel (c2 :: cs2)).map (fun r => (Json.obj r.1, r.2))
      else if c = '-' then
        match takeDigits rest with
        | ([], _) => Option.none
        | (ds, cs2) => some (Json.num (-(Int.ofNat (digitsToNat ds))), cs2)
      else if c.isDigit then
        let r := takeDigits (c :: rest)
        some (Json.num (Int.ofNat (digitsToNat r.1)), r.2)
      else Option.none

/-- Parse the elements of a JSON array up to and including the closing
bracket (the input starts at the first element). -/
def parseElems : Nat → List Char → Option (List Json × List Char)
  | 0, _ => Option.none
  | Nat.succ fuel, cs =>
    match parseVal fuel cs with
    | Option.none => Option.none
    | some (v, cs2) =>
      match skipWs cs2 with
      | [] => Option.none
      | c :: cs3 =>
        if c = ',' then (parseElems fuel cs3).map (fun r => (v :: r.1, r.2))
        else if c = ']' then some ([v], cs3)
        else Option.none

/-- Parse the members of a JSON object up to and including the closing brace
(the input starts at the first key). -/
def parseMembers : Nat → List Char → Option (List (String × Json) × List Char)
  | 0, _ => Option.none
  | Nat.succ fuel, cs =>
    match skipWs cs with
    | [] => Option.none
    | c :: cs1 =>
      if c = quoteC then
        match parseStrChars cs1 with
        | Option.none => Option.none
        | some (kcs, cs2) =>
          match skipWs cs2 with
          | [] => Option.none
          | c2 :: cs3 =>
            if c2 = ':' then
              match parseVal fuel cs3 with
              | Option.none => Option.none
              | some (v, cs4) =>
                match skipWs cs4 with
                | [] => Option.none
                | c3 :: cs5 =>
                  if c3 = ',' then
                    (parseMembers fuel cs5).map (fun r => ((String.mk kcs, v) :: r.1, r.2))
                  else if c3 = rbraceC then some ([(String.mk kcs, v)], cs5)
                  else Option.none
            else Option.none
      else Option.none

end

/-- Parse a whole JSON document: one value followed only by whitespace.
The fuel is generous enough for any document of the given length. -/
def parseJson (s : String) : Option Json :=
  match parseVal (2 * s.length + 4) s.toList with
  | Option.none => Option.none
  | some (v, rest) =>
    match skipWs rest with
    | [] => some v
    | _ :: _ => Option.none

/-- Does an optional JSON value hold an object? -/
def jsonIsObj : Option Json → Bool
  | some (.obj _) => true
  | _ => false

/-! ## Python runtime values -/

/-- Scalar runtime values held by model attributes: strings, integers,
datetimes (modelled as an abstract timestamp), booleans, `None`, and an
opaque marker for values of any other type (lists, dicts). -/
inductive PyVal where
  | vstr (s : String)
  | vint (n : Int)
  | vdt (t : Nat)
  | vbool (b : Bool)
  | vnone
  | vother
  deriving DecidableEq

/-- Python equality between scalar runtime values (`==` on scalars never
raises; values of different kinds compare unequal). -/
def pyEq : PyVal → PyVal → Bool
  | .vstr a, .vstr b => a == b
  | .vint a, .vint b => a == b
  | .vdt a, .vdt b => a == b
  | .vbool a, .vbool b => a == b
  | .vnone, .vnone => true
  | _, _ => false

/-- Convert a decoded JSON value to the runtime value `json.loads` yields
for it (containers are collapsed to the opaque marker; no claim inspects
them). -/
def jsonToVal : Json → PyVal
  | .null => .vnone
  | .bool b => .vbool b
  | .num n => .vint n
  | .str s => .vstr s
  | .arr _ => .vother
  | .obj _ => .vother

/-- Trim leading and trailing whitespace. -/
def trimWs (cs : List Char) : List Char :=
  ((cs.dropWhile isWsChar).reverse.dropWhile isWsChar).reverse

/-- Continue parsing a decimal literal after its first digit, allowing
single underscores between digits as Python's `int` does. -/
def digitsRest : List Char → Nat → Option Nat
  | [], acc => some acc
  | c :: cs, acc =>
    if c.isDigit then digitsRest cs (acc * 10 + (c.toNat - 48))
    else if c = '_' then
      match cs with
      | d :: _ => if d.isDigit then digitsRest cs acc else Option.none
      | [] => Option.none
    else Option.none

/-- Parse a nonempty digit string (underscores allowed between digits). -/
def digitsToNatStrict : List Char → Option Nat
  | [] => Option.none
  | c :: cs => if c.isDigit then digitsRest cs (c.toNat - 48) else Option.none

/-- Python's `int(s)` on a string: optional surrounding whitespace, an
optional sign, then a nonempty run of decimal digits; anything else raises
`ValueError`, modelled as `Option.none`. -/
def pyInt (s : String) : Option Int :=
  match trimWs s.toList with
  | [] => Option.none
  | c :: cs =>
    if c = '-' then (digitsToNatStrict cs).map (fun n => -(Int.ofNat n))
    else if c = '+' then (digitsToNatStrict cs).map Int.ofNat
    else (digitsToNatStrict (c :: cs)).map Int.ofNat

/-! ## Exceptions -/

/-- The exception taxonomy relevant to the framework: the two model-layer
exceptions from `models/exceptions.py` plus the builtin exceptions the
application code can raise. -/
inductive Exc where
  | validationError (msg : String)
  | objectDoesNotExist
  | valueError (msg : String)
  | typeError (msg : String)
  | attributeError (msg : String)
  deriving DecidableEq

/-- The expected, controller-handled exceptions: validation failures and
failed lookups. -/
def Exc.isExpected : Exc → Bool
  | .validationError _ => true
  | .objectDoesNotExist => true
  | _ => false

/-! ## Fields

Modelled from the spec: `models/fields.py` is not in the repository
snapshot.  A Field describes one scalar attribute's kind and constraints
(`kind` text/integer/datetime, optional `max_length` for text, `required`,
`auto_now` for datetime) and holds no per-instance value. -/

/-- The kind of a field, with its kind-specific options. -/
inductive FieldKind where
  | char (maxLength : Option Nat)
  | integer
  | datetime (autoNow : Bool)
  deriving DecidableEq

/-- A declarative field: kind plus the `required` flag. -/
structure Field where
  kind : FieldKind
  required : Bool
  deriving DecidableEq

/-- Modelled from the spec: kind/constraint checking for a supplied or
missing value (`required=True` fails only if the value is absent; a text
field fails on non-textual values or on exceeding `max_length`; an integer
field accepts native integers and rejects everything else, including
non-numeric strings; a plain datetime field accepts datetimes). -/
def Field.check (f : Field) (name : String) (v : Option PyVal) : Except String PyVal :=
  match v with
  | Option.none =>
    if f.required then .error (name ++ " is required") else .ok .vnone
  | some w =>
    match f.kind, w with
    | .char mL, .vstr s =>
      match mL with
      | some m => if s.length ≤ m then .ok (.vstr s) else .error (name ++ " exceeds max_length")
      | Option.none => .ok (.vstr s)
    | .char _, _ => .error (name ++ " must be a string")
    | .integer, .vint n => .ok (.vint n)
    | .integer, _ => .error (name ++ " must be an integer")
    | .datetime _, .vdt t => .ok (.vdt t)
    | .datetime _, _ => .error (name ++ " must be a datetime")

/-- Modelled from the spec: validation at creation time.  A datetime field
with `auto_now` ignores any caller-supplied value and is set to the current
timestamp `now`; every other field is checked against its constraints. -/
def Field.validate (f : Field) (name : String) (now : Nat) (v : Option PyVal) :
    Except String PyVal :=
  match f.kind with
  | .datetime true => .ok (.vdt now)
  | _ => f.check name v

/-- Modelled from the spec: re-validation at save time.  A datetime field
with `auto_now` keeps the value computed when the instance was first
persisted (it is not recomputed on save); every other field is re-checked. -/
def Field.revalidate (f : Field) (name : String) (v : Option PyVal) :
    Except String PyVal :=
  match f.kind with
  | .datetime true => .ok (v.getD .vnone)
  | _ => f.check name v

/-! ## Models

Modelled from the spec: `models/base.py` is not in the repository snapshot.
A model type owns a schema (ordered attribute-name/Field mapping) and an
independent in-memory table of persisted instances kept in insertion order,
with a per-type id counter starting at 1 that is never decreased. -/

/-- A model schema: the ordered mapping from attribute name to Field. -/
abbrev Schema : Type := List (String × Field)

/-- A persisted model instance: its id plus one value per schema attribute. -/
structure Instance where
  id : Nat
  attrs : List (String × PyVal)
  deriving DecidableEq

/-- A model type's in-memory table: rows in insertion order plus the next
id to assign. -/
structure Table where
  rows : List Instance
  nextId : Nat
  deriving DecidableEq

/-- A fresh table, as produced by `_clear_storage`: no rows, ids restart
at 1. -/
def Table.empty : Table := ⟨[], 1⟩

/-- Number of live instances in the table. -/
def Table.count (tbl : Table) : Nat := tbl.rows.length

/-- Modelled from the spec: validate all supplied attributes against the
schema at creation time, producing the attribute values to persist; the
first constraint violation aborts with its message. -/
def validateAttrs (schema : Schema) (now : Nat) (attrs : List (String × PyVal)) :
    Except String (List (String × PyVal)) :=
  match schema with
  | [] => .ok []
  | (name, f) :: rest =>
    match f.validate name now (List.lookup name attrs) with
    | .error e => .error e
    | .ok v =>
      match validateAttrs rest now attrs with
      | .error e => .error e
      | .ok vs => .ok ((name, v) :: vs)

/-- Modelled from the spec: re-validate an instance's current attribute
values at save time (`auto_now` values are kept, not recomputed). -/
def revalidateAttrs (schema : Schema) (attrs : List (String × PyVal)) :
    Except String (List (String × PyVal)) :=
  match schema with
  | [] => .ok []
  | (name, f) :: rest =>
    match f.revalidate name (List.lookup name attrs) with
    | .error e => .error e
    | .ok v =>
      match revalidateAttrs rest attrs with
      | .error e => .error e
      | .ok vs => .ok ((name, v) :: vs)

/-- Modelled from the spec: `create(**attrs)` validates every field and,
only if all pass, assigns the next id (monotonically increasing per type,
starting at 1, never reused), computes `auto_now` fields, inserts the
instance into the table and returns it; on any violation it raises
ValidationError and leaves the table untouched.  Attributes not in the
schema are ignored.  The pair returned is the call's outcome together with
the table after the call. -/
def Model.create (schema : Schema) (now : Nat) (attrs : List (String × PyVal))
    (tbl : Table) : Except Exc Instance × Table :=
  match validateAttrs schema now attrs with
  | .error e => (.error (.validationError e), tbl)
  | .ok vals =>
    let inst : Instance := ⟨tbl.nextId, vals⟩
    (.ok inst, ⟨tbl.rows ++ [inst], tbl.nextId + 1⟩)

/-- Modelled from the spec: `get(id)` returns the stored instance with that
id or raises ObjectDoesNotExist. -/
def Model.get (tbl : Table) (n : Int) : Except Exc Instance :=
  match tbl.rows.find? (fun r => (Int.ofNat r.id) == n) with
  | some r => .ok r
  | Option.none => .error .objectDoesNotExist

/-- Modelled from the spec: `all()` returns every instance in insertion
order. -/
def Model.all (tbl : Table) : List Instance := tbl.rows

/-- Modelled from the spec: instance `save()` re-validates all current
field values and, if valid, overwrites the stored record at the instance's
existing id; on a violation it raises ValidationError and leaves storage
unmodified. -/
def Model.save (schema : Schema) (inst : Instance) (tbl : Table) :
    Except Exc Unit × Table :=
  match revalidateAttrs schema inst.attrs with
  | .error e => (.error (.validationError e), tbl)
  | .ok vals =>
    (.ok (),
     ⟨tbl.rows.map (fun r => if r.id = inst.id then ⟨inst.id, vals⟩ else r), tbl.nextId⟩)

/-- Modelled from the spec: removal of a record (lifecycle step
"optionally removed"); the id counter is untouched, so ids are never
reused after deletion within a process run. -/
def Model.remove (tbl : Table) (n : Nat) : Table :=
  ⟨tbl.rows.filter (fun r => r.id ≠ n), tbl.nextId⟩

/-- Render an attribute value as JSON for `to_dict` (datetimes are rendered
as text). -/
def valToJson : PyVal → Json
  | .vstr s => .str s
  | .vint n => .num n
  | .vdt t => .str (Nat.repr t)
  | .vbool b => .bool b
  | .vnone => .null
  | .vother => .null

/-- Modelled from the spec: `to_dict()` maps attribute names to values,
including the id; datetimes are rendered as text. -/
def Instance.toDict (inst : Instance) : List (String × Json) :=
  ("id", .num (Int.ofNat inst.id)) :: inst.attrs.map (fun kv => (kv.1, valToJson kv.2))

/-- Attribute access on an instance: a missing attribute raises
AttributeError. -/
def Instance.getAttr (inst : Instance) (name : String) : Except Exc PyVal :=
  match List.lookup name inst.attrs with
  | some v => .ok v
  | Option.none => .error (.attributeError name)

/-! ## Request and Response

Modelled from the spec: `core/request.py` and `core/response.py` are not in
the repository snapshot. -/

/-- A parsed HTTP request: method, path (query string already parsed
apart), raw body text (empty when absent), and the path parameters
populated by a successful route match (empty before). -/
structure Request where
  method : String
  path : String
  body : String
  pathParams : List (String × String)
  deriving DecidableEq

/-- Modelled from the spec: `json()` parses the raw body and never raises;
a malformed or absent body, or a JSON document that is not an object,
yields an empty mapping. -/
def Request.json (req : Request) : List (String × Json) :=
  match parseJson req.body with
  | some (.obj kvs) => kvs
  | _ => []

/-- An HTTP response: status, Content-Type header, body text. -/
structure Response where
  status : Nat
  contentType : String
  body : String
  deriving DecidableEq

/-- Modelled from the spec: the `Response.json` factory serializes the data
and fixes the Content-Type. -/
def Response.json (data : Json) (status : Nat) : Response :=
  ⟨status, "application/json", dumps data⟩

/-- Modelled from the spec: the `created` factory fixes status 201. -/
def Response.created (data : Json) : Response :=
  Response.json data 201

/-- Modelled from the spec: the `not_found` factory fixes status 404 with
no internal detail. -/
def Response.notFound : Response :=
  Response.json (.obj [("error", .str "Not Found")]) 404

/-- Modelled from the spec: the `bad_request` factory fixes status 400 and
carries the error message as detail. -/
def Response.badRequest (msg : String) : Response :=
  Response.json (.obj [("error", .str msg)]) 400

/-! ## Router

Modelled from the spec: `core/router.py` is not in the repository snapshot.
A pattern is a sequence of literal segments and named placeholders
`<name>`; the compiled matcher requires the same number of segments as the
incoming path, literal segments to match exactly, and captures placeholder
segments verbatim.  `match` scans the routes in registration order and
returns the handler and captured parameters of the first route whose
method matches case-insensitively and whose pattern matches the path in
full; it never raises. -/

/-- Uppercase one ASCII letter. -/
def charUpper (c : Char) : Char :=
  if 'a' ≤ c ∧ c ≤ 'z' then Char.ofNat (c.toNat - 32) else c

/-- ASCII-uppercase a string (HTTP method names are ASCII). -/
def toUpperStr (s : String) : String :=
  String.mk (s.toList.map charUpper)

/-- Split a character list at every occurrence of a separator (the
semantics of Python's `str.split` with an explicit separator). -/
def splitChars (sep : Char) : List Char → List (List Char)
  | [] => [[]]
  | c :: cs =>
    let r := splitChars sep cs
    if c = sep then [] :: r
    else
      match r with
      | [] => [[c]]
      | g :: gs => (c :: g) :: gs

/-- Split a path into its slash-separated segments. -/
def splitSlash (s : String) : List String :=
  (splitChars '/' s.toList).map String.mk

/-- One compiled pattern segment: a literal or a named placeholder. -/
inductive Seg where
  | lit (s : String)
  | param (name : String)
  deriving DecidableEq

/-- Compile one textual segment: `<name>` becomes a placeholder, anything
else is a literal. -/
def compileSeg (s : String) : Seg :=
  match s.toList with
  | '<' :: rest =>
    if 1 ≤ rest.length ∧ rest.getLast? = some '>' then .param (String.mk rest.dropLast)
    else .lit s
  | _ => .lit s

/-- Compile a path pattern into its segments. -/
def compilePattern (p : String) : List Seg :=
  (splitSlash p).map compileSeg

/-- A registered route: normalized method, compiled pattern, bound handler. -/
structure Route (α : Type) where
  method : String
  segs : List Seg
  handler : α

/-- Register a route (kept in registration order). -/
def Router.addRoute {α : Type} (method path : String) (h : α) (routes : List (Route α)) :
    List (Route α) :=
  routes ++ [⟨toUpperStr method, compilePattern path, h⟩]

/-- Register a GET route. -/
def Router.get {α : Type} (path : String) (h : α) (routes : List (Route α)) :
    List (Route α) :=
  Router.addRoute "GET" path h routes

/-- Register a POST route. -/
def Router.post {α : Type} (path : String) (h : α) (routes : List (Route α)) :
    List (Route α) :=
  Router.addRoute "POST" path h routes

/-- Match compiled pattern segments against the path's segments: the counts
must agree, literals must match exactly, and placeholder segments are
captured verbatim into the parameters mapping. -/
def matchSegs : List Seg → List String → Option (List (String × String))
  | [], [] => some []
  | .lit l :: ps, x :: xs => if x = l then matchSegs ps xs else Option.none
  | .param n :: ps, x :: xs => (matchSegs ps xs).map (fun m => (n, x) :: m)
  | _, _ => Option.none

/-- Try one route against a request: the method must match
case-insensitively and the pattern must match the whole path. -/
def tryRoute {α : Type} (req : Request) (r : Route α) :
    Option (α × List (String × String)) :=
  if toUpperStr r.method = toUpperStr req.method then
    match matchSegs r.segs (splitSlash req.path) with
    | some ps => some (r.handler, ps)
    | Option.none => Option.none
  else Option.none

/-- `match(request)`: first registered route wins; the result carries the
bound handler and the captured path parameters (the no-match signal is
`Option.none`; the function is total, so it never raises). -/
def Router.matchRequest {α : Type} : List (Route α) → Request → Option (α × List (String × String))
  | [], _ => Option.none
  | r :: rest, req =>
    match tryRoute req r with
    | some hp => some hp
    | Option.none => Router.matchRequest rest req

/-! ## Controllers

The generic CRUD operations are modelled from the spec
(`controllers/model_controller.py` is not in the repository snapshot); the
comment-specific actions are embedded from `app.py`. -/

/-- The request body decoded to runtime values, as `self.request.json()`
hands it to `model.create(**data)`. -/
def reqData (req : Request) : List (String × PyVal) :=
  req.json.map (fun kv => (kv.1, jsonToVal kv.2))

/-- Python dict assignment `d[k] = v`: replace the value at an existing
key, otherwise append the new pair. -/
def dictSet {β : Type} (m : List (String × β)) (k : String) (v : β) : List (String × β) :=
  if (List.lookup k m).isSome then m.map (fun kv => if kv.1 = k then (k, v) else kv)
  else m ++ [(k, v)]

/-- The text `str(e)` of an exception, as interpolated into response
bodies. -/
def excStr : Exc → String
  | .validationError msg => msg
  | .objectDoesNotExist => "Object does not exist"
  | .valueError msg => msg
  | .typeError msg => msg
  | .attributeError msg => msg

/-- The `User` model from `app.py`: `name` (char, max 100, required),
`email` (char, max 200, required), `created_at` (datetime, auto_now). -/
def UserSchema : Schema :=
  [("name", ⟨.char (some 100), true⟩),
   ("email", ⟨.char (some 200), true⟩),
   ("created_at", ⟨.datetime true, false⟩)]

/-- The `Post` model from `app.py`: `title` (char, max 200, required),
`content` (char, max 5000), `author_id` (integer, required), `created_at`
(datetime, auto_now). -/
def PostSchema : Schema :=
  [("title", ⟨.char (some 200), true⟩),
   ("content", ⟨.char (some 5000), false⟩),
   ("author_id", ⟨.integer, true⟩),
   ("created_at", ⟨.datetime true, false⟩)]

/-- The `Comment` model from `app.py`: `post_id` (integer, required),
`content` (char, max 500, required), `author_id` (integer, required),
`created_at` (datetime, auto_now). -/
def CommentSchema : Schema :=
  [("post_id", ⟨.integer, true⟩),
   ("content", ⟨.char (some 500), true⟩),
   ("author_id", ⟨.integer, true⟩),
   ("created_at", ⟨.datetime true, false⟩)]

/-- Modelled from the spec: `list()` returns HTTP 200 with a JSON array of
every instance's `to_dict()`, in table order. -/
def ModelController.list (tbl : Table) : Response :=
  Response.json (.arr (tbl.rows.map (fun r => Json.obj r.toDict))) 200

/-- Modelled from the spec: `create()` parses the body as JSON, calls
`model.create(**data)`, returns 201 with the created record's dict on
success and 400 with the error message on any validation failure. -/
def ModelController.create (schema : Schema) (now : Nat) (req : Request) (tbl : Table) :
    Response × Table :=
  match Model.create schema now (reqData req) tbl with
  | (.ok inst, tbl2) => (Response.created (Json.obj inst.toDict), tbl2)
  | (.error e, tbl2) => (Response.badRequest (excStr e), tbl2)

/-- Modelled from the spec: `retrieve(id)` converts the id to the model's
id type (raising ValueError on a non-integer string, like `int`), looks it
up, and returns 200 with the dict or 404 on ObjectDoesNotExist. -/
def ModelController.retrieve (idStr : String) (tbl : Table) : Except Exc Response :=
  match pyInt idStr with
  | Option.none => .error (.valueError ("invalid literal for int: " ++ idStr))
  | some n =>
    match Model.get tbl n with
    | .ok inst => .ok (Response.json (Json.obj inst.toDict) 200)
    | .error _ => .ok Response.notFound

/-- From `app.py` (`CommentController.create_for_post`): reads the JSON
body, sets `data['post_id'] = int(id)` before the try block (so a
non-integer id raises ValueError out of the handler), then tries
`self.model.create(**data)`, answering 201 on success; the bare
`except Exception` turns any creation failure into a 400. -/
def CommentController.createForPost (now : Nat) (req : Request) (idStr : String)
    (comments : Table) : Except Exc (Response × Table) :=
  match pyInt idStr with
  | Option.none => .error (.valueError ("invalid literal for int: " ++ idStr))
  | some n =>
    let data := dictSet (reqData req) "post_id" (.vint n)
    match Model.create CommentSchema now data comments with
    | (.ok inst, tbl2) => .ok (Response.created (Json.obj inst.toDict), tbl2)
    | (.error e, tbl2) => .ok (Response.badRequest (excStr e), tbl2)

/-- The condition of the comprehension in `list_for_post`:
`c.post_id == int(id)`, evaluated lazily per element; it raises
AttributeError if the instance has no `post_id` and ValueError if `id` is
not an integer string. -/
def listForPostCond (idStr : String) (c : Instance) : Except Exc Bool :=
  match c.getAttr "post_id" with
  | .error e => .error e
  | .ok v =>
    match pyInt idStr with
    | some n => .ok (pyEq v (.vint n))
    | Option.none => .error (.valueError ("invalid literal for int: " ++ idStr))

/-- A list comprehension with a condition that may raise: elements are
filtered left to right and the first exception propagates. -/
def filterE {α : Type} (p : α → Except Exc Bool) : List α → Except Exc (List α)
  | [] => .ok []
  | x :: xs =>
    match p x with
    | .error e => .error e
    | .ok b =>
      match filterE p xs with
      | .error e => .error e
      | .ok rest => .ok (if b then x :: rest else rest)

/-- From `app.py` (`CommentController.list_for_post`): fetches all
comments, filters them by `c.post_id == int(id)` in a comprehension (the
`int(id)` conversion is unguarded and only runs when some comment is
examined), and answers 200 with the filtered dicts. -/
def CommentController.listForPost (idStr : String) (comments : Table) :
    Except Exc Response :=
  match filterE (listForPostCond idStr) (Model.all comments) with
  | .error e => .error e
  | .ok kept => .ok (Response.json (.arr (kept.map (fun c => Json.obj c.toDict))) 200)

/-! ## The blog application (`app.py`) -/

/-- The process-wide storage: one independent table per model type. -/
structure Storage where
  users : Table
  posts : Table
  comments : Table
  deriving DecidableEq

/-- Storage right after `_clear_storage`: all tables fresh. -/
def Storage.empty : Storage := ⟨Table.empty, Table.empty, Table.empty⟩

/-- The bound controller methods of the application's eight routes. -/
inductive Action where
  | usersList
  | usersCreate
  | usersRetrieve
  | postsList
  | postsCreate
  | postsRetrieve
  | commentsCreateForPost
  | commentsListForPost
  deriving DecidableEq

/-- The declared parameter names of each bound method, as
`inspect.signature` reports them in `register_controller` (the bound
`self` is not included). -/
def Action.sigParams : Action → List String
  | .usersRetrieve => ["id"]
  | .postsRetrieve => ["id"]
  | .commentsCreateForPost => ["id"]
  | .commentsListForPost => ["id"]
  | _ => []

/-- From `app.py` (`register_controller`): the adapter walks the method's
declared parameters and keeps exactly those that appear in the request's
path parameters, reading each value from the path parameters. -/
def buildKwargs (sigParams : List String) (pathParams : List (String × String)) :
    List (String × String) :=
  sigParams.foldl
    (fun kw p =>
      match List.lookup p pathParams with
      | some v => kw ++ [(p, v)]
      | Option.none => kw)
    []

/-- Fetch a required keyword argument of a method call; Python raises
TypeError when a required parameter is missing. -/
def requireArg (kwargs : List (String × String)) (name : String) : Except Exc String :=
  match List.lookup name kwargs with
  | some v => .ok v
  | Option.none => .error (.typeError ("missing required argument: " ++ name))

/-- Invoke one bound controller method with the keyword arguments built by
the adapter, on the current storage.  The comment schema is fixed by
`CommentController.model = Comment`. -/
def Action.run (a : Action) (now : Nat) (req : Request)
    (kwargs : List (String × String)) (st : Storage) :
    Except Exc (Response × Storage) :=
  match a with
  | .usersList => .ok (ModelController.list st.users, st)
  | .usersCreate =>
    let rt := ModelController.create UserSchema now req st.users
    .ok (rt.1, ⟨rt.2, st.posts, st.comments⟩)
  | .usersRetrieve =>
    match requireArg kwargs "id" with
    | .error e => .error e
    | .ok idStr =>
      match ModelController.retrieve idStr st.users with
      | .error e => .error e
      | .ok resp => .ok (resp, st)
  | .postsList => .ok (ModelController.list st.posts, st)
  | .postsCreate =>
    let rt := ModelController.create PostSchema now req st.posts
    .ok (rt.1, ⟨st.users, rt.2, st.comments⟩)
  | .postsRetrieve =>
    match requireArg kwargs "id" with
    | .error e => .error e
    | .ok idStr =>
      match ModelController.retrieve idStr st.posts with
      | .error e => .error e
      | .ok resp => .ok (resp, st)
  | .commentsCreateForPost =>
    match requireArg kwargs "id" with
    | .error e => .error e
    | .ok idStr =>
      match CommentController.createForPost now req idStr st.comments with
      | .error e => .error e
      | .ok rt => .ok (rt.1, ⟨st.users, st.posts, rt.2⟩)
  | .commentsListForPost =>
    match requireArg kwargs "id" with
    | .error e => .error e
    | .ok idStr =>
      match CommentController.listForPost idStr st.comments with
      | .error e => .error e
      | .ok resp => .ok (resp, st)

/-- The handler produced by `register_controller`: build the keyword
arguments from the method's signature and the matched path parameters,
then call the method. -/
def runAction (a : Action) (now : Nat) (req : Request) (st : Storage) :
    Except Exc (Response × Storage) :=
  a.run now req (buildKwargs a.sigParams req.pathParams) st

/-- The application's route table, in registration order (from `app.py`). -/
def appRouter : List (Route Action) :=
  []
  |> Router.get "/users" Action.usersList
  |> Router.post "/users" Action.usersCreate
  |> Router.get "/users/<id>" Action.usersRetrieve
  |> Router.get "/posts" Action.postsList
  |> Router.post "/posts" Action.postsCreate
  |> Router.get "/posts/<id>" Action.postsRetrieve
  |> Router.post "/posts/<id>/comments" Action.commentsCreateForPost
  |> Router.get "/posts/<id>/comments" Action.commentsListForPost

/-- From `app.py` (`FrameworkHTTPHandler._handle`): match the route; when a
handler is bound, run it with the captured path parameters installed on the
request, converting any exception that escapes it into HTTP 500 with the
generic error body; with no matching route answer 404. -/
def handleRequest (now : Nat) (req : Request) (st : Storage) : Response × Storage :=
  match Router.matchRequest appRouter req with
  | some (a, ps) =>
    let req2 : Request := ⟨req.method, req.path, req.body, ps⟩
    match runAction a now req2 st with
    | .ok rs => rs
    | .error e =>
      (Response.json (.obj [("error", .str "Internal Server Error"),
                            ("details", .str (excStr e))]) 500,
       st)
  | Option.none => (Response.notFound, st)

/-! ## Sequences of table operations

Used to state the id-assignment invariants: any interleaving of creates,
saves and removals against one model type's table. -/

/-- One mutating operation against a model type's table. -/
inductive Op where
  | createOp (now : Nat) (attrs : List (String × PyVal))
  | saveOp (inst : Instance)
  | deleteOp (n : Nat)

/-- Apply one operation, reporting the id assigned when a create
succeeds. -/
def applyOp (schema : Schema) (tbl : Table) : Op → Table × Option Nat
  | .createOp now attrs =>
    match Model.create schema now attrs tbl with
    | (.ok inst, tbl2) => (tbl2, some inst.id)
    | (.error _, tbl2) => (tbl2, Option.none)
  | .saveOp inst => ((Model.save schema inst tbl).2, Option.none)
  | .deleteOp n => (Model.remove tbl n, Option.none)

/-- Run a sequence of operations, collecting the ids assigned by the
successful creates in order. -/
def runOps (schema : Schema) : Table → List Op → Table × List Nat
  | tbl, [] => (tbl, [])
  | tbl, op :: ops =>
    let r := applyOp schema tbl op
    let rest := runOps schema r.1 ops
    (rest.1, r.2.toList ++ rest.2)

/-- The table invariant: every stored id is below the id counter and the
stored ids are pairwise distinct. -/
def Table.WF (tbl : Table) : Prop :=
  (∀ r ∈ tbl.rows, r.id < tbl.nextId) ∧ (tbl.rows.map Instance.id).Nodup

/-! ## Lemmas about the dispatch adapter -/

theorem mem_buildKwargs_aux (pp : List (String × String)) (sig : List String)
    (acc : List (String × String)) (k v : String) :
    (k, v) ∈ sig.foldl
        (fun kw p =>
          match List.lookup p pp with
          | some w => kw ++ [(p, w)]
          | Option.none => kw) acc ↔
      (k, v) ∈ acc ∨ (k ∈ sig ∧ List.lookup k pp = some v) := by
  induction sig generalizing acc with
  | nil => simp
  | cons p rest ih =>
    simp only [List.foldl_cons]
    cases h : List.lookup p pp with
    | none =>
      simp only [h]
      rw [ih]
      constructor
      · rintro (hacc | ⟨hm, hl⟩)
        · exact Or.inl hacc
        · exact Or.inr ⟨List.mem_cons_of_mem _ hm, hl⟩
      · rintro (hacc | ⟨hm, hl⟩)
        · exact Or.inl hacc
        · rcases List.mem_cons.mp hm with rfl | hm2
          · rw [h] at hl; exact Option.noConfusion hl
          · exact Or.inr ⟨hm2, hl⟩
    | some w =>
      simp only [h]
      rw [ih]
      simp only [List.mem_append, List.mem_singleton, Prod.mk.injEq]
      constructor
      · rintro ((hacc | ⟨rfl, rfl⟩) | ⟨hm, hl⟩)
        · exact Or.inl hacc
        · exact Or.inr ⟨List.mem_cons_self _ _, h⟩
        · exact Or.inr ⟨List.mem_cons_of_mem _ hm, hl⟩
      · rintro (hacc | ⟨hm, hl⟩)
        · exact Or.inl (Or.inl hacc)
        · rcases List.mem_cons.mp hm with rfl | hm2
          · rw [h] at hl
            injection hl with hw
            exact Or.inl (Or.inr ⟨rfl, hw.symm⟩)
          · exact Or.inr ⟨hm2, hl⟩

/-- C7: the dispatch adapter calls the controller method with exactly the
keyword arguments whose names are both declared parameters of the method
and keys of the request's path-parameters mapping, each bound to the
captured value; path parameters not declared by the method are dropped and
declared parameters the route did not capture are not supplied. -/
theorem adapter_kwargs_exact (sig : List String) (pp : List (String × String))
    (k v : String) :
    (k, v) ∈ buildKwargs sig pp ↔ k ∈ sig ∧ List.lookup k pp = some v := by
  have h := mem_buildKwargs_aux pp sig [] k v
  simpa [buildKwargs] using h

/-! ## Lemmas about request-body parsing -/

/-- C8: `Request.json` is a total function, so it never raises; when the
body does not parse as a JSON object it returns the empty mapping, when it
does parse as an object it returns that object's members, and on the
concrete bodies `"invalid"` (the test input), the absent body and a
well-formed object it behaves accordingly. -/
theorem request_json_never_raises :
    (∀ req : Request, jsonIsObj (parseJson req.body) = false → req.json = []) ∧
    (∀ (req : Request) (kvs : List (String × Json)),
        parseJson req.body = some (.obj kvs) → req.json = kvs) ∧
    Request.json ⟨"POST", "/", "invalid", []⟩ = [] ∧
    Request.json ⟨"POST", "/", "", []⟩ = [] ∧
    Request.json ⟨"POST", "/", "\x7b\"key\": \"value\"\x7d", []⟩ = [("key", Json.str "value")] := by
  refine ⟨?_, ?_, rfl, rfl, rfl⟩
  · intro req h
    unfold Request.json
    cases hp : parseJson req.body with
    | none => rfl
    | some j =>
      cases j with
      | obj kvs => rw [hp] at h; simp [jsonIsObj] at h
      | null => rfl
      | bool b => rfl
      | num n => rfl
      | str s => rfl
      | arr xs => rfl
  · intro req kvs hp
    unfold Request.json
    rw [hp]

theorem request_json_never_raises_witness :
    Request.json ⟨"GET", "/x", "not json", []⟩ = [] :=
  request_json_never_raises.1 ⟨"GET", "/x", "not json", []⟩ (by rfl)

/-! ## Lemmas about the router -/

/-- The parameters a pattern captures from a path: each placeholder paired
with the segment standing at its position. -/
def capturedParams (ps : List Seg) (xs : List String) : List (String × String) :=
  (ps.zip xs).filterMap (fun sx =>
    match sx.1 with
    | .param n => some (n, sx.2)
    | .lit _ => Option.none)

theorem matchSegs_some {ps : List Seg} {xs : List String} {m : List (String × String)}
    (h : matchSegs ps xs = some m) : ps.length = xs.length ∧ m = capturedParams ps xs := by
  induction ps generalizing xs m with
  | nil =>
    cases xs with
    | nil =>
      simp only [matchSegs] at h
      injection h with h2
      simp [capturedParams, ← h2]
    | cons x xs2 => simp [matchSegs] at h
  | cons s rest ih =>
    cases xs with
    | nil => cases s <;> simp [matchSegs] at h
    | cons x xs2 =>
      cases s with
      | lit l =>
        simp only [matchSegs] at h
        by_cases hx : x = l
        · rw [if_pos hx] at h
          obtain ⟨hlen, hm⟩ := ih h
          constructor
          · simpa using hlen
          · simpa [capturedParams] using hm
        · rw [if_neg hx] at h
          exact Option.noConfusion h
      | param n =>
        simp only [matchSegs] at h
        cases hm : matchSegs rest xs2 with
        | none => rw [hm] at h; exact Option.noConfusion h
        | some m2 =>
          rw [hm] at h
          injection h with h2
          obtain ⟨hlen, hcap⟩ := ih hm
          constructor
          · simpa using hlen
          · simp [capturedParams, ← h2, hcap]

theorem tryRoute_some {α : Type} {req : Request} {r : Route α} {h : α}
    {ps : List (String × String)} (ht : tryRoute req r = some (h, ps)) :
    toUpperStr r.method = toUpperStr req.method ∧ h = r.handler ∧
      matchSegs r.segs (splitSlash req.path) = some ps := by
  unfold tryRoute at ht
  by_cases hm : toUpperStr r.method = toUpperStr req.method
  · rw [if_pos hm] at ht
    cases hms : matchSegs r.segs (splitSlash req.path) with
    | none => rw [hms] at ht; exact Option.noConfusion ht
    | some ps2 =>
      rw [hms] at ht
      injection ht with ht2
      rw [Prod.mk.injEq] at ht2
      obtain ⟨h1, h2⟩ := ht2
      subst h1
      subst h2
      exact ⟨hm, rfl, rfl⟩
  · rw [if_neg hm] at ht
    exact Option.noConfusion ht

theorem matchRequest_first {α : Type} (routes : List (Route α)) (req : Request)
    (v : α × List (String × String)) :
    Router.matchRequest routes req = some v ↔
      ∃ pre r post, routes = pre ++ r :: post ∧ tryRoute req r = some v ∧
        ∀ r2 ∈ pre, tryRoute req r2 = Option.none := by
  induction routes with
  | nil =>
    simp only [Router.matchRequest]
    constructor
    · intro h; exact Option.noConfusion h
    · rintro ⟨pre, r, post, heq, -, -⟩
      exact absurd heq.symm (List.append_ne_nil_of_right_ne_nil pre (by simp))
  | cons r0 rest ih =>
    simp only [Router.matchRequest]
    cases ht : tryRoute req r0 with
    | some hp =>
      constructor
      · intro h
        injection h with h2
        exact ⟨[], r0, rest, rfl, by rw [ht, h2], by intro r2 h2x; cases h2x⟩
      · rintro ⟨pre, r, post, heq, hr, hpre⟩
        cases pre with
        | nil =>
          simp only [List.nil_append, List.cons.injEq] at heq
          obtain ⟨rfl, rfl⟩ := heq
          rw [ht] at hr
          exact hr
        | cons p pre2 =>
          simp only [List.cons_append, List.cons.injEq] at heq
          obtain ⟨rfl, -⟩ := heq
          have hnone := hpre r0 (List.mem_cons_self r0 pre2)
          rw [ht] at hnone
          exact Option.noConfusion hnone
    | none =>
      rw [ih]
      constructor
      · rintro ⟨pre, r, post, heq, hr, hpre⟩
        refine ⟨r0 :: pre, r, post, by rw [heq, List.cons_append], hr, ?_⟩
        intro r2 h2
        rcases List.mem_cons.mp h2 with rfl | h3
        · exact ht
        · exact hpre _ h3
      · rintro ⟨pre, r, post, heq, hr, hpre⟩
        cases pre with
        | nil =>
          simp only [List.nil_append, List.cons.injEq] at heq
          obtain ⟨rfl, -⟩ := heq
          rw [ht] at hr
          exact Option.noConfusion hr
        | cons p pre2 =>
          simp only [List.cons_append, List.cons.injEq] at heq
          obtain ⟨rfl, rfl⟩ := heq
          refine ⟨pre2, r, post, rfl, hr, ?_⟩
          intro r2 h2
          exact hpre r2 (List.mem_cons_of_mem r0 h2)

/-- C2: `match` returns the handler and captured parameters of the first
registered route whose method equals the request's method case-insensitively
and whose pattern matches the path in full (same segment count, literals
exact, placeholders captured verbatim); being a total function it never
raises, and on the spec's examples it matches `GET /users/123` against
`GET /users/<id>` with `path_params = [("id", "123")]`, while a different
method or extra or missing segments yield the no-match signal. -/
theorem router_match_first_route :
    (∀ (α : Type) (routes : List (Route α)) (req : Request)
        (v : α × List (String × String)),
        Router.matchRequest routes req = some v ↔
          ∃ (pre : List (Route α)) (r : Route α) (post : List (Route α)),
            routes = pre ++ r :: post ∧ tryRoute req r = some v ∧
              ∀ r2 ∈ pre, tryRoute req r2 = Option.none) ∧
    (∀ (α : Type) (req : Request) (r : Route α) (h : α) (ps : List (String × String)),
        tryRoute req r = some (h, ps) →
          toUpperStr r.method = toUpperStr req.method ∧ h = r.handler ∧
            matchSegs r.segs (splitSlash req.path) = some ps) ∧
    (∀ (ps : List Seg) (xs : List String) (m : List (String × String)),
        matchSegs ps xs = some m → ps.length = xs.length ∧ m = capturedParams ps xs) ∧
    Router.matchRequest (Router.get "/users/<id>" 0 ([] : List (Route Nat)))
        ⟨"GET", "/users/123", "", []⟩ = some (0, [("id", "123")]) ∧
    Router.matchRequest (Router.get "/users/<id>" 0 ([] : List (Route Nat)))
        ⟨"POST", "/users/123", "", []⟩ = Option.none ∧
    Router.matchRequest (Router.get "/users/<id>" 0 ([] : List (Route Nat)))
        ⟨"GET", "/users/123/extra", "", []⟩ = Option.none ∧
    Router.matchRequest (Router.get "/users/<id>" 0 ([] : List (Route Nat)))
        ⟨"GET", "/users", "", []⟩ = Option.none := by
  refine ⟨?_, ?_, ?_, by decide, by decide, by decide, by decide⟩
  · intro α routes req v
    exact matchRequest_first routes req v
  · intro α req r h ps ht
    exact tryRoute_some ht
  · intro ps xs m h
    exact matchSegs_some h

theorem router_match_first_route_witness :
    ([Seg.param "id"].length = ["123"].length ∧
      [("id", "123")] = capturedParams [Seg.param "id"] ["123"]) :=
  router_match_first_route.2.2.1 [Seg.param "id"] ["123"] [("id", "123")] (by decide)

/-! ## Lemmas about validation -/

theorem validateAttrs_error_of_field {schema : Schema} {now : Nat}
    {attrs : List (String × PyVal)} {nm : String} {f : Field} {msg : String}
    (hmem : (nm, f) ∈ schema)
    (hval : f.validate nm now (List.lookup nm attrs) = .error msg) :
    ∃ e, validateAttrs schema now attrs = .error e := by
  induction schema with
  | nil => cases hmem
  | cons hd rest ih =>
    obtain ⟨n0, f0⟩ := hd
    rcases List.mem_cons.mp hmem with heq | hmem2
    · rw [Prod.mk.injEq] at heq
      obtain ⟨rfl, rfl⟩ := heq
      refine ⟨msg, ?_⟩
      simp only [validateAttrs, hval]
    · simp only [validateAttrs]
      cases hv : f0.validate n0 now (List.lookup n0 attrs) with
      | error e => exact ⟨e, rfl⟩
      | ok v =>
        obtain ⟨e, he⟩ := ih hmem2
        rw [he]
        exact ⟨e, rfl⟩

theorem revalidateAttrs_error_of_field {schema : Schema}
    {attrs : List (String × PyVal)} {nm : String} {f : Field} {msg : String}
    (hmem : (nm, f) ∈ schema)
    (hval : f.revalidate nm (List.lookup nm attrs) = .error msg) :
    ∃ e, revalidateAttrs schema attrs = .error e := by
  induction schema with
  | nil => cases hmem
  | cons hd rest ih =>
    obtain ⟨n0, f0⟩ := hd
    rcases List.mem_cons.mp hmem with heq | hmem2
    · rw [Prod.mk.injEq] at heq
      obtain ⟨rfl, rfl⟩ := heq
      refine ⟨msg, ?_⟩
      simp only [revalidateAttrs, hval]
    · simp only [revalidateAttrs]
      cases hv : f0.revalidate n0 (List.lookup n0 attrs) with
      | error e => exact ⟨e, rfl⟩
      | ok v =>
        obtain ⟨e, he⟩ := ih hmem2
        rw [he]
        exact ⟨e, rfl⟩

/-- C1: when any field's validation fails, `create` raises a
ValidationError and the table is returned unchanged (same rows, hence same
count and same stored records), and `save` on an instance whose current
values fail re-validation raises a ValidationError with storage unmodified;
neither ever persists on a validation failure. -/
theorem create_save_atomic_on_invalid :
    (∀ (schema : Schema) (now : Nat) (attrs : List (String × PyVal)) (tbl : Table)
        (nm : String) (f : Field) (msg : String),
        (nm, f) ∈ schema →
        f.validate nm now (List.lookup nm attrs) = .error msg →
        ∃ e, Model.create schema now attrs tbl = (.error (.validationError e), tbl)) ∧
    (∀ (schema : Schema) (inst : Instance) (tbl : Table)
        (nm : String) (f : Field) (msg : String),
        (nm, f) ∈ schema →
        f.revalidate nm (List.lookup nm inst.attrs) = .error msg →
        ∃ e, Model.save schema inst tbl = (.error (.validationError e), tbl)) := by
  constructor
  · intro schema now attrs tbl nm f msg hmem hval
    obtain ⟨e, he⟩ := validateAttrs_error_of_field hmem hval
    refine ⟨e, ?_⟩
    simp only [Model.create, he]
  · intro schema inst tbl nm f msg hmem hval
    obtain ⟨e, he⟩ := revalidateAttrs_error_of_field hmem hval
    refine ⟨e, ?_⟩
    simp only [Model.save, he]

theorem create_save_atomic_on_invalid_witness :
    ∃ e, Model.create UserSchema 0 [("email", PyVal.vstr "a@x.com")] Table.empty =
      (.error (.validationError e), Table.empty) :=
  create_save_atomic_on_invalid.1 UserSchema 0 [("email", PyVal.vstr "a@x.com")]
    Table.empty "name" ⟨.char (some 100), true⟩ "name is required"
    (by decide) (by rfl)

/-! ## Lemmas about auto_now fields -/

theorem lookup_validateAttrs_autoNow {schema : Schema} {now : Nat}
    {attrs vals : List (String × PyVal)} {nm : String} {f : Field}
    (hnd : (schema.map Prod.fst).Nodup) (hmem : (nm, f) ∈ schema)
    (hkind : f.kind = .datetime true)
    (hok : validateAttrs schema now attrs = .ok vals) :
    List.lookup nm vals = some (.vdt now) := by
  induction schema generalizing vals with
  | nil => cases hmem
  | cons hd rest ih =>
    obtain ⟨n0, f0⟩ := hd
    simp only [validateAttrs] at hok
    cases hv : f0.validate n0 now (List.lookup n0 attrs) with
    | error e => rw [hv] at hok; exact Except.noConfusion hok
    | ok v =>
      rw [hv] at hok
      cases hrest : validateAttrs rest now attrs with
      | error e => rw [hrest] at hok; exact Except.noConfusion hok
      | ok vs =>
        rw [hrest] at hok
        injection hok with hok2
        subst hok2
        simp only [List.map_cons, List.nodup_cons] at hnd
        rcases List.mem_cons.mp hmem with heq | hmem2
        · rw [Prod.mk.injEq] at heq
          obtain ⟨rfl, rfl⟩ := heq
          have hvv : v = .vdt now := by
            simp only [Field.validate, hkind] at hv
            injection hv with hv2
            exact hv2.symm
          simp [List.lookup_cons, hvv]
        · have hne : nm ≠ n0 := by
            intro hc
            subst hc
            exact hnd.1 (List.mem_map_of_mem Prod.fst hmem2)
          rw [List.lookup_cons]
          have hbeq : (nm == n0) = false := beq_eq_false_iff_ne.mpr hne
          rw [hbeq]
          exact ih hnd.2 hmem2 hrest

theorem lookup_revalidateAttrs_autoNow {schema : Schema}
    {attrs vals : List (String × PyVal)} {nm : String} {f : Field}
    (hnd : (schema.map Prod.fst).Nodup) (hmem : (nm, f) ∈ schema)
    (hkind : f.kind = .datetime true)
    (hok : revalidateAttrs schema attrs = .ok vals) :
    List.lookup nm vals = some ((List.lookup nm attrs).getD .vnone) := by
  induction schema generalizing vals with
  | nil => cases hmem
  | cons hd rest ih =>
    obtain ⟨n0, f0⟩ := hd
    simp only [revalidateAttrs] at hok
    cases hv : f0.revalidate n0 (List.lookup n0 attrs) with
    | error e => rw [hv] at hok; exact Except.noConfusion hok
    | ok v =>
      rw [hv] at hok
      cases hrest : revalidateAttrs rest attrs with
      | error e => rw [hrest] at hok; exact Except.noConfusion hok
      | ok vs =>
        rw [hrest] at hok
        injection hok with hok2
        subst hok2
        simp only [List.map_cons, List.nodup_cons] at hnd
        rcases List.mem_cons.mp hmem with heq | hmem2
        · rw [Prod.mk.injEq] at heq
          obtain ⟨rfl, rfl⟩ := heq
          have hvv : v = (List.lookup nm attrs).getD .vnone := by
            simp only [Field.revalidate, hkind] at hv
            injection hv with hv2
            exact hv2.symm
          simp [List.lookup_cons, hvv]
        · have hne : nm ≠ n0 := by
            intro hc
            subst hc
            exact hnd.1 (List.mem_map_of_mem Prod.fst hmem2)
          rw [List.lookup_cons]
          have hbeq : (nm == n0) = false := beq_eq_false_iff_ne.mpr hne
          rw [hbeq]
          exact ih hnd.2 hmem2 hrest

/-- C3: a datetime field with `auto_now` ignores any caller-supplied value
and is set to the creation timestamp `now` the moment the instance is first
persisted by `create`; a later `save` writes back the instance's current
value for that field unchanged (it is never recomputed). -/
theorem auto_now_computed_once_at_create :
    (∀ (schema : Schema) (now : Nat) (attrs : List (String × PyVal))
        (tbl tbl2 : Table) (inst : Instance) (nm : String) (f : Field),
        (schema.map Prod.fst).Nodup → (nm, f) ∈ schema → f.kind = .datetime true →
        Model.create schema now attrs tbl = (.ok inst, tbl2) →
        List.lookup nm inst.attrs = some (.vdt now)) ∧
    (∀ (schema : Schema) (inst : Instance) (tbl tbl2 : Table) (u : Unit)
        (nm : String) (f : Field) (v : PyVal),
        (schema.map Prod.fst).Nodup → (nm, f) ∈ schema → f.kind = .datetime true →
        List.lookup nm inst.attrs = some v →
        Model.save schema inst tbl = (.ok u, tbl2) →
        ∀ r ∈ tbl2.rows, r.id = inst.id → List.lookup nm r.attrs = some v) := by
  constructor
  · intro schema now attrs tbl tbl2 inst nm f hnd hmem hkind hcr
    unfold Model.create at hcr
    cases hva : validateAttrs schema now attrs with
    | error e => rw [hva] at hcr; simp at hcr
    | ok vals =>
      rw [hva] at hcr
      rw [Prod.mk.injEq] at hcr
      obtain ⟨h1, -⟩ := hcr
      injection h1 with h1b
      subst h1b
      exact lookup_validateAttrs_autoNow hnd hmem hkind hva
  · intro schema inst tbl tbl2 u nm f v hnd hmem hkind hv hsave r hr hid
    unfold Model.save at hsave
    cases hra : revalidateAttrs schema inst.attrs with
    | error e => rw [hra] at hsave; simp at hsave
    | ok vals =>
      rw [hra] at hsave
      rw [Prod.mk.injEq] at hsave
      obtain ⟨-, h2⟩ := hsave
      subst h2
      obtain ⟨r0, hr0, hmap⟩ := List.mem_map.mp hr
      by_cases hcase : r0.id = inst.id
      · rw [if_pos hcase] at hmap
        subst hmap
        have hlk := lookup_revalidateAttrs_autoNow hnd hmem hkind hra
        rw [hv] at hlk
        simpa using hlk
      · rw [if_neg hcase] at hmap
        subst hmap
        exact absurd hid hcase

theorem auto_now_computed_once_at_create_witness :
    List.lookup "created_at"
      [("name", PyVal.vstr "A"), ("email", PyVal.vstr "E"), ("created_at", PyVal.vdt 7)] =
      some (PyVal.vdt 7) :=
  auto_now_computed_once_at_create.1 UserSchema 7
    [("name", PyVal.vstr "A"), ("email", PyVal.vstr "E"), ("created_at", PyVal.vdt 99)]
    Table.empty
    ⟨[⟨1, [("name", PyVal.vstr "A"), ("email", PyVal.vstr "E"), ("created_at", PyVal.vdt 7)]⟩], 2⟩
    ⟨1, [("name", PyVal.vstr "A"), ("email", PyVal.vstr "E"), ("created_at", PyVal.vdt 7)]⟩
    "created_at" ⟨.datetime true, false⟩
    (by decide) (by decide) rfl (by rfl)

/-! ## Lemmas about the exceptions each handler can raise -/

theorem requireArg_error {kwargs : List (String × String)} {name : String} {e : Exc}
    (h : requireArg kwargs name = .error e) : ∃ m, e = .typeError m := by
  unfold requireArg at h
  cases hk : List.lookup name kwargs with
  | none => rw [hk] at h; injection h with h2; exact ⟨_, h2.symm⟩
  | some v => rw [hk] at h; exact Except.noConfusion h

theorem getAttr_error {c : Instance} {nm : String} {e : Exc}
    (h : c.getAttr nm = .error e) : ∃ m, e = .attributeError m := by
  unfold Instance.getAttr at h
  cases hl : List.lookup nm c.attrs with
  | some v => rw [hl] at h; exact Except.noConfusion h
  | none => rw [hl] at h; injection h with h2; exact ⟨_, h2.symm⟩

theorem retrieve_error {idStr : String} {tbl : Table} {e : Exc}
    (h : ModelController.retrieve idStr tbl = .error e) : ∃ m, e = .valueError m := by
  unfold ModelController.retrieve at h
  cases hp : pyInt idStr with
  | none => simp only [hp] at h; injection h with h2; exact ⟨_, h2.symm⟩
  | some n =>
    simp only [hp] at h
    cases hg : Model.get tbl n with
    | ok i => rw [hg] at h; exact Except.noConfusion h
    | error e2 => rw [hg] at h; exact Except.noConfusion h

theorem createForPost_error {now : Nat} {req : Request} {idStr : String}
    {tbl : Table} {e : Exc}
    (h : CommentController.createForPost now req idStr tbl = .error e) :
    ∃ m, e = .valueError m := by
  unfold CommentController.createForPost at h
  cases hp : pyInt idStr with
  | none => simp only [hp] at h; injection h with h2; exact ⟨_, h2.symm⟩
  | some n =>
    simp only [hp] at h
    cases hc : Model.create CommentSchema now (dictSet (reqData req) "post_id" (PyVal.vint n)) tbl with
    | mk res tbl2 =>
      rw [hc] at h
      cases res with
      | ok inst => exact Except.noConfusion h
      | error e2 => exact Except.noConfusion h

theorem listForPostCond_error {idStr : String} {c : Instance} {e : Exc}
    (h : listForPostCond idStr c = .error e) : e.isExpected = false := by
  unfold listForPostCond at h
  cases hg : c.getAttr "post_id" with
  | error e2 =>
    rw [hg] at h
    injection h with h2
    subst h2
    obtain ⟨m, rfl⟩ := getAttr_error hg
    rfl
  | ok v =>
    rw [hg] at h
    cases hp : pyInt idStr with
    | some n => rw [hp] at h; exact Except.noConfusion h
    | none => rw [hp] at h; injection h with h2; subst h2; rfl

theorem filterE_error {α : Type} {p : α → Except Exc Bool} {l : List α} {e : Exc}
    (h : filterE p l = .error e) : ∃ x ∈ l, p x = .error e := by
  induction l with
  | nil => exact Except.noConfusion h
  | cons x xs ih =>
    unfold filterE at h
    cases hp : p x with
    | error e2 =>
      rw [hp] at h
      injection h with h2
      subst h2
      exact ⟨x, List.mem_cons_self x xs, hp⟩
    | ok b =>
      rw [hp] at h
      cases hr : filterE p xs with
      | error e2 =>
        rw [hr] at h
        injection h with h2
        subst h2
        obtain ⟨y, hy, hpy⟩ := ih hr
        exact ⟨y, List.mem_cons_of_mem x hy, hpy⟩
      | ok rest => rw [hr] at h; exact Except.noConfusion h

theorem listForPost_error {idStr : String} {tbl : Table} {e : Exc}
    (h : CommentController.listForPost idStr tbl = .error e) : e.isExpected = false := by
  unfold CommentController.listForPost at h
  cases hf : filterE (listForPostCond idStr) (Model.all tbl) with
  | error e2 =>
    rw [hf] at h
    injection h with h2
    subst h2
    obtain ⟨x, -, hx⟩ := filterE_error hf
    exact listForPostCond_error hx
  | ok kept => rw [hf] at h; exact Except.noConfusion h

theorem actionRun_error_not_expected {a : Action} {now : Nat} {req : Request}
    {kwargs : List (String × String)} {st : Storage} {e : Exc}
    (h : Action.run a now req kwargs st = .error e) : e.isExpected = false := by
  cases a with
  | usersList => exact Except.noConfusion h
  | usersCreate => exact Except.noConfusion h
  | postsList => exact Except.noConfusion h
  | postsCreate => exact Except.noConfusion h
  | usersRetrieve =>
    cases hk : requireArg kwargs "id" with
    | error e2 =>
      simp only [Action.run, hk] at h
      injection h with h2
      subst h2
      obtain ⟨m, rfl⟩ := requireArg_error hk
      rfl
    | ok idStr =>
      cases hr : ModelController.retrieve idStr st.users with
      | error e2 =>
        simp only [Action.run, hk, hr] at h
        injection h with h2
        subst h2
        obtain ⟨m, rfl⟩ := retrieve_error hr
        rfl
      | ok resp =>
        simp only [Action.run, hk, hr] at h
        exact Except.noConfusion h
  | postsRetrieve =>
    cases hk : requireArg kwargs "id" with
    | error e2 =>
      simp only [Action.run, hk] at h
      injection h with h2
      subst h2
      obtain ⟨m, rfl⟩ := requireArg_error hk
      rfl
    | ok idStr =>
      cases hr : ModelController.retrieve idStr st.posts with
      | error e2 =>
        simp only [Action.run, hk, hr] at h
        injection h with h2
        subst h2
        obtain ⟨m, rfl⟩ := retrieve_error hr
        rfl
      | ok resp =>
        simp only [Action.run, hk, hr] at h
        exact Except.noConfusion h
  | commentsCreateForPost =>
    cases hk : requireArg kwargs "id" with
    | error e2 =>
      simp only [Action.run, hk] at h
      injection h with h2
      subst h2
      obtain ⟨m, rfl⟩ := requireArg_error hk
      rfl
    | ok idStr =>
      cases hr : CommentController.createForPost now req idStr st.comments with
      | error e2 =>
        simp only [Action.run, hk, hr] at h
        injection h with h2
        subst h2
        obtain ⟨m, rfl⟩ := createForPost_error hr
        rfl
      | ok rt =>
        simp only [Action.run, hk, hr] at h
        exact Except.noConfusion h
  | commentsListForPost =>
    cases hk : requireArg kwargs "id" with
    | error e2 =>
      simp only [Action.run, hk] at h
      injection h with h2
      subst h2
      obtain ⟨m, rfl⟩ := requireArg_error hk
      rfl
    | ok idStr =>
      cases hr : CommentController.listForPost idStr st.comments with
      | error e2 =>
        simp only [Action.run, hk, hr] at h
        injection h with h2
        subst h2
        exact listForPost_error hr
      | ok resp =>
        simp only [Action.run, hk, hr] at h
        exact Except.noConfusion h

/-- C4: the top-level dispatch converts any exception escaping a matched
handler into HTTP 500 with the generic error body; but no bound handler of
the application lets a ValidationError or ObjectDoesNotExist escape (the
generic create answers 201 or 400, and a retrieve response is 200 or 404),
so the expected failures are turned into 4xx responses before reaching the
catch-all. -/
theorem unhandled_errors_become_500 :
    (∀ (a : Action) (now : Nat) (req : Request) (kwargs : List (String × String))
        (st : Storage) (e : Exc),
        Action.run a now req kwargs st = .error e → e.isExpected = false) ∧
    (∀ (now : Nat) (req : Request) (st : Storage) (a : Action)
        (ps : List (String × String)) (e : Exc),
        Router.matchRequest appRouter req = some (a, ps) →
        runAction a now ⟨req.method, req.path, req.body, ps⟩ st = .error e →
        handleRequest now req st =
          (Response.json (.obj [("error", .str "Internal Server Error"),
                                ("details", .str (excStr e))]) 500, st)) ∧
    (∀ (schema : Schema) (now : Nat) (req : Request) (tbl : Table),
        (ModelController.create schema now req tbl).1.status = 201 ∨
        (ModelController.create schema now req tbl).1.status = 400) ∧
    (∀ (idStr : String) (tbl : Table) (resp : Response),
        ModelController.retrieve idStr tbl = .ok resp →
        resp.status = 200 ∨ resp.status = 404) := by
  refine ⟨?_, ?_, ?_, ?_⟩
  · intro a now req kwargs st e h
    exact actionRun_error_not_expected h
  · intro now req st a ps e hm he
    simp [handleRequest, hm, he]
  · intro schema now req tbl
    unfold ModelController.create
    cases hc : Model.create schema now (reqData req) tbl with
    | mk res tbl2 =>
      cases res with
      | ok inst => left; rfl
      | error e => right; rfl
  · intro idStr tbl resp h
    unfold ModelController.retrieve at h
    cases hp : pyInt idStr with
    | none => simp only [hp] at h; exact Except.noConfusion h
    | some n =>
      simp only [hp] at h
      cases hg : Model.get tbl n with
      | ok inst =>
        rw [hg] at h
        injection h with h2
        subst h2
        left; rfl
      | error e2 =>
        rw [hg] at h
        injection h with h2
        subst h2
        right; rfl

theorem unhandled_errors_become_500_witness :
    Exc.isExpected (.typeError "missing required argument: id") = false :=
  unhandled_errors_become_500.1 .usersRetrieve 0 ⟨"GET", "/", "", []⟩ [] Storage.empty
    (.typeError "missing required argument: id") (by rfl)

/-! ## Lemmas about dict assignment -/

theorem lookup_cons_ne {β : Type} {k1 k2 : String} (h : k2 ≠ k1) (v1 : β)
    (rest : List (String × β)) :
    List.lookup k2 ((k1, v1) :: rest) = List.lookup k2 rest := by
  rw [List.lookup_cons]
  rw [show (k2 == k1) = false from beq_eq_false_iff_ne.mpr h]

theorem lookup_cons_self {β : Type} (k : String) (v : β) (rest : List (String × β)) :
    List.lookup k ((k, v) :: rest) = some v := by
  rw [List.lookup_cons]
  rw [show (k == k) = true from beq_self_eq_true k]

theorem lookup_map_set {β : Type} (m : List (String × β)) (k k2 : String) (v : β) :
    List.lookup k2 (m.map (fun kv => if kv.1 = k then (k, v) else kv)) =
      if k2 = k then (if (List.lookup k m).isSome then some v else Option.none)
      else List.lookup k2 m := by
  induction m with
  | nil => by_cases h : k2 = k <;> simp [h]
  | cons kv rest ih =>
    obtain ⟨k1, v1⟩ := kv
    rw [List.map_cons]
    by_cases hk1 : k1 = k
    · subst hk1
      rw [if_pos rfl]
      by_cases h2 : k2 = k1
      · subst h2
        simp [lookup_cons_self]
      · simp [lookup_cons_ne h2, ih, h2]
    · rw [if_neg hk1]
      by_cases h2 : k2 = k1
      · subst h2
        have hne : k2 ≠ k := fun hc => hk1 (hc ▸ rfl)
        simp [lookup_cons_self, hne]
      · rw [lookup_cons_ne h2, ih, lookup_cons_ne h2,
          lookup_cons_ne (show k ≠ k1 from fun hc => hk1 hc.symm)]

theorem lookup_append_single {β : Type} (m : List (String × β)) (k k2 : String) (v : β) :
    List.lookup k2 (m ++ [(k, v)]) =
      match List.lookup k2 m with
      | some w => some w
      | Option.none => if k2 = k then some v else Option.none := by
  induction m with
  | nil =>
    by_cases h : k2 = k
    · subst h; simp [lookup_cons_self]
    · simp [lookup_cons_ne h, h]
  | cons kv rest ih =>
    obtain ⟨k1, v1⟩ := kv
    by_cases h2 : k2 = k1
    · subst h2
      simp [lookup_cons_self]
    · simp [lookup_cons_ne h2, ih]

/-- Looking up the assigned key after `d[k] = v` yields `v`, and every
other key is unaffected. -/
theorem lookup_dictSet {β : Type} (m : List (String × β)) (k k2 : String) (v : β) :
    List.lookup k2 (dictSet m k v) = if k2 = k then some v else List.lookup k2 m := by
  unfold dictSet
  cases hs : List.lookup k m with
  | some w =>
    rw [if_pos (show (Option.some w).isSome = true from rfl)]
    rw [lookup_map_set]
    by_cases h : k2 = k
    · simp [h, hs]
    · simp [h]
  | none =>
    rw [if_neg (show ¬(Option.none : Option β).isSome = true from by simp)]
    rw [lookup_append_single]
    by_cases h : k2 = k
    · subst h
      simp [hs]
    · cases hl : List.lookup k2 m <;> simp [h]

/-! ## The nested-resource create path -/

theorem validateAttrs_comment (now : Nat) {data : List (String × PyVal)}
    {n a : Int} {s : String}
    (hpost : List.lookup "post_id" data = some (.vint n))
    (hc : List.lookup "content" data = some (.vstr s))
    (hlen : s.length ≤ 500)
    (ha : List.lookup "author_id" data = some (.vint a)) :
    validateAttrs CommentSchema now data =
      .ok [("post_id", .vint n), ("content", .vstr s), ("author_id", .vint a),
           ("created_at", .vdt now)] := by
  have hif : (if s.length ≤ 500 then (Except.ok (PyVal.vstr s) : Except String PyVal)
      else .error ("content" ++ " exceeds max_length")) = .ok (.vstr s) := if_pos hlen
  simp only [CommentSchema, validateAttrs, Field.validate, Field.check,
    hpost, hc, ha, hif]

/-- C5: a POST to `/posts/<id>/comments` whose id segment is a decimal
integer `n` and whose JSON body supplies a `content` and `author_id`
satisfying the Comment schema answers 201 Created, and the stored comment's
`post_id` equals `n`, the integer value of the path segment (overriding any
body-supplied `post_id`); concretely, the spec's Scenario 4 dispatch of
`POST /posts/5/comments` with body `content = "hi"`, `author_id = 1`
answers 201 and stores a single comment with `post_id == 5`. -/
theorem create_for_post_stores_path_post_id :
    (∀ (now : Nat) (req : Request) (idStr : String) (n : Int) (comments : Table)
        (s : String) (a : Int),
        pyInt idStr = some n →
        List.lookup "content" (reqData req) = some (.vstr s) →
        s.length ≤ 500 →
        List.lookup "author_id" (reqData req) = some (.vint a) →
        ∃ (inst : Instance) (tbl2 : Table),
          CommentController.createForPost now req idStr comments =
            .ok (Response.created (Json.obj inst.toDict), tbl2) ∧
          (Response.created (Json.obj inst.toDict)).status = 201 ∧
          tbl2.rows = comments.rows ++ [inst] ∧
          inst.id = comments.nextId ∧
          List.lookup "post_id" inst.attrs = some (.vint n)) ∧
    (handleRequest 7 ⟨"POST", "/posts/5/comments",
        "\x7b\"content\": \"hi\", \"author_id\": 1\x7d", []⟩ Storage.empty).1.status = 201 ∧
    ((handleRequest 7 ⟨"POST", "/posts/5/comments",
        "\x7b\"content\": \"hi\", \"author_id\": 1\x7d", []⟩ Storage.empty).2.comments.rows.map
      (fun r => List.lookup "post_id" r.attrs)) = [some (PyVal.vint 5)] := by
  refine ⟨?_, by decide, by decide⟩
  intro now req idStr n comments s a hp hc hlen ha
  have hpost : List.lookup "post_id" (dictSet (reqData req) "post_id" (PyVal.vint n)) =
      some (.vint n) := by
    rw [lookup_dictSet]
    simp
  have hcont : List.lookup "content" (dictSet (reqData req) "post_id" (PyVal.vint n)) =
      some (.vstr s) := by
    rw [lookup_dictSet]
    simpa using hc
  have hauth : List.lookup "author_id" (dictSet (reqData req) "post_id" (PyVal.vint n)) =
      some (.vint a) := by
    rw [lookup_dictSet]
    simpa using ha
  have hva := validateAttrs_comment now hpost hcont hlen hauth
  refine ⟨⟨comments.nextId,
      [("post_id", .vint n), ("content", .vstr s), ("author_id", .vint a),
       ("created_at", .vdt now)]⟩,
    ⟨comments.rows ++
       [⟨comments.nextId,
         [("post_id", .vint n), ("content", .vstr s), ("author_id", .vint a),
          ("created_at", .vdt now)]⟩],
     comments.nextId + 1⟩, ?_, rfl, rfl, rfl, ?_⟩
  · unfold CommentController.createForPost
    simp only [hp]
    unfold Model.create
    rw [hva]
  · exact lookup_cons_self "post_id" (PyVal.vint n) _

theorem create_for_post_stores_path_post_id_witness :
    ∃ (inst : Instance) (tbl2 : Table),
      CommentController.createForPost 0
          ⟨"POST", "/", "\x7b\"content\": \"hi\", \"author_id\": 1\x7d", []⟩
          "5" Table.empty =
        .ok (Response.created (Json.obj inst.toDict), tbl2) ∧
      (Response.created (Json.obj inst.toDict)).status = 201 ∧
      tbl2.rows = Table.empty.rows ++ [inst] ∧
      inst.id = Table.empty.nextId ∧
      List.lookup "post_id" inst.attrs = some (.vint 5) :=
  create_for_post_stores_path_post_id.1 0
    ⟨"POST", "/", "\x7b\"content\": \"hi\", \"author_id\": 1\x7d", []⟩
    "5" 5 Table.empty "hi" 1 (by rfl) (by rfl) (by decide) (by rfl)

/-! ## The nested-resource list path -/

theorem pyEq_vint_iff (v : PyVal) (n : Int) : pyEq v (.vint n) = true ↔ v = .vint n := by
  cases v <;> simp [pyEq]

theorem listForPost_pred_iff (c : Instance) (n : Int) :
    (pyEq ((List.lookup "post_id" c.attrs).getD .vnone) (.vint n) = true) ↔
      List.lookup "post_id" c.attrs = some (.vint n) := by
  cases hl : List.lookup "post_id" c.attrs with
  | none => simp [pyEq]
  | some v => simp [pyEq_vint_iff]

theorem filterE_listForPost_ok {idStr : String} {n : Int} {rows : List Instance}
    (hp : pyInt idStr = some n)
    (hattr : ∀ c ∈ rows, (List.lookup "post_id" c.attrs).isSome) :
    filterE (listForPostCond idStr) rows =
      .ok (rows.filter
        (fun c => pyEq ((List.lookup "post_id" c.attrs).getD .vnone) (.vint n))) := by
  induction rows with
  | nil => rfl
  | cons c rest ih =>
    have hcm := hattr c (List.mem_cons_self c rest)
    cases hl : List.lookup "post_id" c.attrs with
    | none => rw [hl] at hcm; simp at hcm
    | some v =>
      have hcond : listForPostCond idStr c = .ok (pyEq v (.vint n)) := by
        unfold listForPostCond Instance.getAttr
        simp only [hl, hp]
      unfold filterE
      rw [hcond]
      rw [ih (fun x hx => hattr x (List.mem_cons_of_mem c hx))]
      rw [List.filter_cons]
      simp only [hl]
      rfl

/-- C6: for a decimal id segment `n`, `list_for_post` answers HTTP 200 with
exactly the stored comments whose `post_id` equals `n` — a comment is in
the response iff it is stored and its `post_id` is `n`, others are
excluded — and the response lists them in creation (table) order, being a
sublist of the table's rows. -/
theorem list_for_post_filters_by_post_id :
    ∀ (idStr : String) (n : Int) (comments : Table),
      pyInt idStr = some n →
      (∀ c ∈ comments.rows, (List.lookup "post_id" c.attrs).isSome) →
      (CommentController.listForPost idStr comments =
        .ok (Response.json (.arr ((comments.rows.filter
            (fun c => pyEq ((List.lookup "post_id" c.attrs).getD .vnone) (.vint n))).map
          (fun c => Json.obj c.toDict))) 200)) ∧
      (∀ c : Instance,
          c ∈ comments.rows.filter
              (fun c => pyEq ((List.lookup "post_id" c.attrs).getD .vnone) (.vint n)) ↔
            c ∈ comments.rows ∧ List.lookup "post_id" c.attrs = some (.vint n)) ∧
      (comments.rows.filter
          (fun c => pyEq ((List.lookup "post_id" c.attrs).getD .vnone) (.vint n))).Sublist
        comments.rows := by
  intro idStr n comments hp hattr
  refine ⟨?_, ?_, List.filter_sublist comments.rows⟩
  · unfold CommentController.listForPost Model.all
    rw [filterE_listForPost_ok hp hattr]
  · intro c
    rw [List.mem_filter]
    rw [listForPost_pred_iff]

theorem list_for_post_filters_by_post_id_witness :
    CommentController.listForPost "5"
        ⟨[⟨1, [("post_id", PyVal.vint 5)]⟩, ⟨2, [("post_id", PyVal.vint 6)]⟩], 3⟩ =
      .ok (Response.json (.arr
        (((⟨[⟨1, [("post_id", PyVal.vint 5)]⟩, ⟨2, [("post_id", PyVal.vint 6)]⟩], 3⟩ :
            Table).rows.filter
          (fun c => pyEq ((List.lookup "post_id" c.attrs).getD .vnone) (.vint 5))).map
        (fun c => Json.obj c.toDict))) 200) :=
  (list_for_post_filters_by_post_id "5" 5
    ⟨[⟨1, [("post_id", PyVal.vint 5)]⟩, ⟨2, [("post_id", PyVal.vint 6)]⟩], 3⟩
    (by rfl) (by decide)).1

/-! ## Lemmas about id assignment -/

theorem save_nextId (schema : Schema) (inst : Instance) (tbl : Table) :
    ((Model.save schema inst tbl).2).nextId = tbl.nextId := by
  cases h : revalidateAttrs schema inst.attrs with
  | error e => simp [Model.save, h]
  | ok vals => simp [Model.save, h]

theorem save_row_ids (schema : Schema) (inst : Instance) (tbl : Table) :
    ((Model.save schema inst tbl).2).rows.map Instance.id = tbl.rows.map Instance.id := by
  cases h : revalidateAttrs schema inst.attrs with
  | error e => simp [Model.save, h]
  | ok vals =>
    simp only [Model.save, h]
    rw [List.map_map]
    apply List.map_congr_left
    intro r hr
    by_cases hc : r.id = inst.id
    · simp [Function.comp, hc]
    · simp [Function.comp, hc]

theorem applyOp_create_fst (schema : Schema) (now : Nat)
    (attrs : List (String × PyVal)) (tbl : Table) :
    (applyOp schema tbl (Op.createOp now attrs)).1 = (Model.create schema now attrs tbl).2 := by
  simp only [applyOp]
  cases hc : Model.create schema now attrs tbl with
  | mk res tbl2 => cases res <;> rfl

theorem runOps_ids (schema : Schema) (ops : List Op) (tbl : Table) :
    (runOps schema tbl ops).2 =
      List.range' tbl.nextId (runOps schema tbl ops).2.length 1 ∧
    (runOps schema tbl ops).1.nextId = tbl.nextId + (runOps schema tbl ops).2.length := by
  induction ops generalizing tbl with
  | nil => simp [runOps]
  | cons op ops ih =>
    cases op with
    | createOp now attrs =>
      cases hv : validateAttrs schema now attrs with
      | error e =>
        simp only [runOps, applyOp, Model.create, hv, Option.toList_none, List.nil_append]
        exact ih tbl
      | ok vals =>
        simp only [runOps, applyOp, Model.create, hv, Option.toList_some, List.singleton_append]
        have ih2 := ih ⟨tbl.rows ++ [⟨tbl.nextId, vals⟩], tbl.nextId + 1⟩
        refine ⟨?_, ?_⟩
        · rw [List.length_cons, List.range'_succ]
          rw [ih2.1]
          simp [List.length_range']
        · rw [ih2.2, List.length_cons]
          show tbl.nextId + 1 + _ = tbl.nextId + (_ + 1)
          omega
    | saveOp inst =>
      simp only [runOps, applyOp, Option.toList_none, List.nil_append]
      have ih2 := ih ((Model.save schema inst tbl).2)
      rw [save_nextId] at ih2
      exact ih2
    | deleteOp m =>
      simp only [runOps, applyOp, Option.toList_none, List.nil_append]
      have ih2 := ih (Model.remove tbl m)
      have hnx : (Model.remove tbl m).nextId = tbl.nextId := rfl
      rw [hnx] at ih2
      exact ih2

theorem WF_empty : Table.WF Table.empty := by
  constructor
  · intro r hr
    cases hr
  · simp [Table.empty]

theorem WF_create (schema : Schema) (now : Nat) (attrs : List (String × PyVal))
    {tbl : Table} (h : tbl.WF) : ((Model.create schema now attrs tbl).2).WF := by
  cases hv : validateAttrs schema now attrs with
  | error e => simp only [Model.create, hv]; exact h
  | ok vals =>
    simp only [Model.create, hv]
    obtain ⟨hlt, hnd⟩ := h
    constructor
    · intro r hr
      rcases List.mem_append.mp hr with hr1 | hr2
      · exact Nat.lt_succ_of_lt (hlt r hr1)
      · rw [List.mem_singleton] at hr2
        subst hr2
        exact Nat.lt_succ_self _
    · rw [List.map_append]
      rw [List.nodup_append]
      refine ⟨hnd, List.nodup_singleton _, ?_⟩
      intro x hx hx2
      simp only [List.map_cons, List.map_nil, List.mem_singleton] at hx2
      subst hx2
      obtain ⟨r0, hr0, hid⟩ := List.mem_map.mp hx
      have := hlt r0 hr0
      rw [hid] at this
      exact Nat.lt_irrefl _ this

theorem WF_save (schema : Schema) (inst : Instance) {tbl : Table} (h : tbl.WF) :
    ((Model.save schema inst tbl).2).WF := by
  obtain ⟨hlt, hnd⟩ := h
  constructor
  · intro r hr
    have hid : r.id ∈ ((Model.save schema inst tbl).2).rows.map Instance.id :=
      List.mem_map_of_mem Instance.id hr
    rw [save_row_ids] at hid
    obtain ⟨r0, hr0, heq⟩ := List.mem_map.mp hid
    rw [save_nextId, ← heq]
    exact hlt r0 hr0
  · rw [save_row_ids]
    exact hnd

theorem WF_remove {tbl : Table} (h : tbl.WF) (m : Nat) : (Model.remove tbl m).WF := by
  obtain ⟨hlt, hnd⟩ := h
  constructor
  · intro r hr
    exact hlt r (List.mem_of_mem_filter hr)
  · have hsub : (Model.remove tbl m).rows.Sublist tbl.rows := List.filter_sublist _
    exact (hsub.map Instance.id).nodup hnd

theorem WF_runOps (schema : Schema) (ops : List Op) {tbl : Table} (h : tbl.WF) :
    ((runOps schema tbl ops).1).WF := by
  induction ops generalizing tbl with
  | nil => exact h
  | cons op ops ih =>
    cases op with
    | createOp now attrs =>
      simp only [runOps]
      rw [applyOp_create_fst]
      exact ih (WF_create schema now attrs h)
    | saveOp inst =>
      simp only [runOps, applyOp]
      exact ih (WF_save schema inst h)
    | deleteOp m =>
      simp only [runOps, applyOp]
      exact ih (WF_remove h m)

/-- C9: over any sequence of creates, saves and removals starting from a
fresh table, the ids assigned by the successful creates are exactly
1, 2, 3, … in order — strictly increasing from 1, never repeated even after
a record is removed (removal leaves the counter untouched); the resulting
table always satisfies the invariant that stored ids are pairwise distinct
and below the counter; and `save` never changes any stored instance's id. -/
theorem ids_monotone_unique_never_reused :
    (∀ (schema : Schema) (ops : List Op),
        (runOps schema Table.empty ops).2 =
          List.range' 1 (runOps schema Table.empty ops).2.length 1) ∧
    (∀ (schema : Schema) (ops : List Op), ((runOps schema Table.empty ops).1).WF) ∧
    (∀ (schema : Schema) (inst : Instance) (tbl : Table),
        ((Model.save schema inst tbl).2).rows.map Instance.id =
          tbl.rows.map Instance.id) := by
  refine ⟨?_, ?_, ?_⟩
  · intro schema ops
    exact (runOps_ids schema ops Table.empty).1
  · intro schema ops
    exact WF_runOps schema ops WF_empty
  · intro schema inst tbl
    exact save_row_ids schema inst tbl

/-! ## Non-decimal id segments -/

/-- C10 counterexample: dispatching `GET /posts/abc/comments` against an
empty comment table answers 200 with an empty list, not 500 — the
`int(id)` conversion in `list_for_post` sits inside the comprehension's
condition, which never runs when there are no comments to examine. -/
theorem list_for_post_bad_id_empty_table_200 :
    (handleRequest 0 ⟨"GET", "/posts/abc/comments", "", []⟩ Storage.empty).1.status = 200 ∧
    ¬((handleRequest 0 ⟨"GET", "/posts/abc/comments", "", []⟩ Storage.empty).1.status = 500) := by
  exact ⟨by decide, by decide⟩

/-- C10 (amended): for a non-decimal id segment, `create_for_post` always
raises ValueError from `int(id)` before its try/except, so the POST is
answered 500 by the catch-all; `list_for_post` evaluates `int(id)` inside
the comprehension's condition, so it raises ValueError (and the GET is
answered 500) exactly when at least one comment is stored, while with an
empty comment table it answers 200 with an empty list. -/
theorem non_decimal_id_error_paths :
    (∀ (now : Nat) (req : Request) (idStr : String) (tbl : Table),
        pyInt idStr = Option.none →
        ∃ m, CommentController.createForPost now req idStr tbl = .error (.valueError m)) ∧
    (∀ (idStr : String) (tbl : Table),
        pyInt idStr = Option.none →
        tbl.rows ≠ [] →
        (∀ c ∈ tbl.rows, (List.lookup "post_id" c.attrs).isSome) →
        ∃ m, CommentController.listForPost idStr tbl = .error (.valueError m)) ∧
    (∀ (idStr : String) (tbl : Table),
        tbl.rows = [] →
        CommentController.listForPost idStr tbl = .ok (Response.json (.arr []) 200)) ∧
    (handleRequest 0 ⟨"POST", "/posts/abc/comments", "", []⟩ Storage.empty).1.status = 500 ∧
    (handleRequest 0 ⟨"GET", "/posts/abc/comments", "", []⟩
        ⟨Table.empty, Table.empty, ⟨[⟨1, [("post_id", PyVal.vint 5)]⟩], 2⟩⟩).1.status = 500 := by
  refine ⟨?_, ?_, ?_, by decide, by decide⟩
  · intro now req idStr tbl hp
    unfold CommentController.createForPost
    simp only [hp]
    exact ⟨_, rfl⟩
  · intro idStr tbl hp hne hattr
    cases hrows : tbl.rows with
    | nil => exact absurd hrows hne
    | cons c rest =>
      unfold CommentController.listForPost Model.all
      rw [hrows]
      have hcm := hattr c (by rw [hrows]; exact List.mem_cons_self c rest)
      cases hl : List.lookup "post_id" c.attrs with
      | none => rw [hl] at hcm; simp at hcm
      | some v =>
        have hcond : listForPostCond idStr c =
            .error (.valueError ("invalid literal for int: " ++ idStr)) := by
          unfold listForPostCond Instance.getAttr
          simp only [hl, hp]
        unfold filterE
        rw [hcond]
        exact ⟨_, rfl⟩
  · intro idStr tbl hrows
    unfold CommentController.listForPost Model.all
    rw [hrows]
    rfl

theorem non_decimal_id_error_paths_witness :
    ∃ m, CommentController.createForPost 0 ⟨"POST", "/", "", []⟩ "abc" Table.empty =
      .error (.valueError m) :=
  non_decimal_id_error_paths.1 0 ⟨"POST", "/", "", []⟩ "abc" Table.empty (by rfl)

end MiniMVC
